import Mathlib

/-
Shallow embedding of src/profile.cu (CUDA roofline reporter).

Modelling conventions:
* C `int` values are embedded as `ℤ`; where the source multiplies two
  `int`s the result is wrapped to 32-bit two's complement with `wrap32`
  (matching the usual wraparound behaviour of the compiled program).
* C `double` arithmetic is embedded as exact rational arithmetic over `ℚ`
  (the formulas are compared at the level of their mathematical values).
* The `main` routine's observable behaviour is embedded as a trace of
  output events together with the process's exit code.
-/

namespace CudaProfile

/-- Two's-complement wraparound of an integer product into a 32-bit
signed `int`, as performed by the compiled program when a C `int`
multiplication overflows. -/
def wrap32 (x : ℤ) : ℤ := (x + 2 ^ 31) % 2 ^ 32 - 2 ^ 31

/-- The per-SM core count lookup inside `getTheoreticalGFLOPS`
(src/profile.cu lines 22-41): a cascade of `if` tests on the compute
capability `major`/`minor`, with a default of 64. -/
def coresPerSM (major minor : ℤ) : ℤ :=
  if major = 2 then 32
  else if major = 3 then 192
  else if major = 5 then 128
  else if major = 6 then (if minor = 0 then 64 else 128)
  else if major = 7 then (if minor = 0 then 64 else 64)
  else if major = 8 then (if minor = 0 then 64 else 128)
  else if major = 9 then 128
  else 64

/-- `getTheoreticalGFLOPS` (src/profile.cu lines 16-48).
`totalCores = coresPerSM * multiProcessorCount` and the product
`totalCores * clockRate` are both computed in 32-bit `int` arithmetic
(hence wrapped) before the widening to `double` forced by `* 2.0`. -/
def getTheoreticalGFLOPS (major minor multiProcessorCount clockRate : ℤ) : ℚ :=
  let totalCores : ℤ := wrap32 (coresPerSM major minor * multiProcessorCount)
  ((wrap32 (totalCores * clockRate) : ℚ) * 2) / 1000000

/-- `getMemoryBandwidth` (src/profile.cu lines 51-54).  The first
multiplication `memoryClockRate * 2.0` already promotes to `double`, so
no integer wraparound occurs in this function. -/
def getMemoryBandwidth (memoryClockRate memoryBusWidth : ℤ) : ℚ :=
  ((memoryClockRate : ℚ) * 2 * (memoryBusWidth : ℚ)) / (8 * 1000)

/-- `calculateBoundaryArithmeticIntensity` (src/profile.cu lines 57-60):
plain division, with no guard against a zero bandwidth. -/
def calculateBoundaryArithmeticIntensity (peakGFLOPS memoryBandwidthGB : ℚ) : ℚ :=
  peakGFLOPS / memoryBandwidthGB

/-- Label of a reference workload in the printed report. -/
inductive BoundKind where
  | memoryBound
  | computingBound
deriving DecidableEq, Repr

/-- The classification test used for each reference workload in `main`
(src/profile.cu lines 111-130): `if (I < boundaryAI)` the workload is
printed as Memory Bound, otherwise as Computing Bound. -/
def classifyIntensity (intensity boundaryAI : ℚ) : BoundKind :=
  if intensity < boundaryAI then BoundKind.memoryBound else BoundKind.computingBound

/-- The five fixed representative arithmetic intensities of the
reference workloads in `main` (src/profile.cu lines 112-129):
vector addition 0.33, matrix-vector 2.0, small matmul 8.0,
large matmul 40.0, large-kernel convolution 60.0. -/
def referenceIntensities : List ℚ := [33 / 100, 2, 8, 40, 60]

/-- The subset of `cudaDeviceProp` read by the program. -/
structure DeviceProp where
  name : String
  major : ℤ
  minor : ℤ
  multiProcessorCount : ℤ
  clockRate : ℤ
  memoryClockRate : ℤ
  memoryBusWidth : ℤ
  totalGlobalMem : ℤ
  sharedMemPerBlock : ℤ
deriving DecidableEq, Repr

/-- Observable output events of a run of `main`: the opening banner, a
fatal diagnostic from `CUDA_CHECK`, the "no CUDA devices" message, the
report section for one device, and the 60-character separator rule. -/
inductive Event where
  | banner
  | diag (msg : String)
  | noDevices
  | report (device : ℕ)
  | sep
deriving DecidableEq, Repr

/-- The body of `main`'s device loop (src/profile.cu lines 73-155),
run over a list of device indices.  For each index: query the device's
properties; on failure `CUDA_CHECK` prints a diagnostic and the process
exits with code 1 at once; on success the device's report section is
printed, followed by the separator rule when `device < deviceCount - 1`.
Returns the emitted events and the exit code. -/
def deviceLoop (props : ℕ → Except String DeviceProp) (n : ℕ) :
    List ℕ → List Event × ℕ
  | [] => ([], 0)
  | i :: rest =>
    match props i with
    | Except.error e => ([Event.diag e], 1)
    | Except.ok _ =>
      let r := deviceLoop props n rest
      (Event.report i :: (if i < n - 1 then Event.sep :: r.1 else r.1), r.2)

/-- `main` (src/profile.cu lines 62-158): print the banner; query the
device count (fatal diagnostic and exit 1 on failure); exit 1 with a
message when no device is found; otherwise loop over devices 0..n-1 and
return 0. -/
def mainRun (count : Except String ℕ) (props : ℕ → Except String DeviceProp) :
    List Event × ℕ :=
  match count with
  | Except.error e => ([Event.banner, Event.diag e], 1)
  | Except.ok n =>
    if n = 0 then ([Event.banner, Event.noDevices], 1)
    else
      let r := deviceLoop props n (List.range n)
      (Event.banner :: r.1, r.2)

/-- The events emitted by a run of the device loop in which every query
succeeds: one report per device, with the separator rule after every
device except the last (`i < n - 1`). -/
def sectionEvents (n : ℕ) : List ℕ → List Event
  | [] => []
  | i :: rest =>
    (Event.report i :: (if i < n - 1 then [Event.sep] else []))
      ++ sectionEvents n rest

/- ### Helper lemmas -/

lemma wrap32_eq_self {x : ℤ} (h1 : -(2 ^ 31) ≤ x) (h2 : x < 2 ^ 31) : wrap32 x = x := by
  unfold wrap32
  have h3 : (0 : ℤ) ≤ x + 2 ^ 31 := by linarith
  have h4 : x + 2 ^ 31 < 2 ^ 32 := by norm_num at h2 ⊢; linarith
  rw [Int.emod_eq_of_lt h3 h4]
  ring

lemma coresPerSM_pos (major minor : ℤ) : 0 < coresPerSM major minor := by
  unfold coresPerSM
  split_ifs <;> norm_num

/-- When the triple product stays within `int` range, `getTheoreticalGFLOPS`
computes the exact mathematical formula. -/
lemma gflops_exact (major minor mpc clock : ℤ) (hm : 0 ≤ mpc) (hc : 0 ≤ clock)
    (hb : coresPerSM major minor * mpc * clock ≤ 2 ^ 31 - 1) :
    getTheoreticalGFLOPS major minor mpc clock
      = ((coresPerSM major minor * mpc * clock : ℤ) : ℚ) * 2 / 1000000 := by
  have hcores := coresPerSM_pos major minor
  rcases eq_or_lt_of_le hc with h0 | hpos
  · -- clockRate = 0: the second product is 0 whatever the first wrapped to
    unfold getTheoreticalGFLOPS
    rw [← h0]
    simp [wrap32]
  · -- clockRate ≥ 1: neither int product wraps
    have h1 : (1 : ℤ) ≤ clock := hpos
    have hcm : 0 ≤ coresPerSM major minor * mpc := mul_nonneg (le_of_lt hcores) hm
    have hle : coresPerSM major minor * mpc ≤ coresPerSM major minor * mpc * clock := by
      nlinarith
    have hw1 : wrap32 (coresPerSM major minor * mpc) = coresPerSM major minor * mpc := by
      apply wrap32_eq_self
      · linarith
      · linarith
    have hprod : 0 ≤ coresPerSM major minor * mpc * clock := mul_nonneg hcm hc
    have hw2 : wrap32 (coresPerSM major minor * mpc * clock)
        = coresPerSM major minor * mpc * clock := by
      apply wrap32_eq_self
      · linarith
      · linarith
    unfold getTheoreticalGFLOPS
    show ((wrap32 (wrap32 (coresPerSM major minor * mpc) * clock) : ℚ) * 2) / 1000000 = _
    rw [hw1, hw2]

/- ### Helper lemmas about the device loop -/

lemma sectionEvents_cons (n i : ℕ) (rest : List ℕ) :
    sectionEvents n (i :: rest)
      = (Event.report i :: (if i < n - 1 then [Event.sep] else []))
          ++ sectionEvents n rest := rfl

lemma sectionEvents_append (n : ℕ) (l1 l2 : List ℕ) :
    sectionEvents n (l1 ++ l2) = sectionEvents n l1 ++ sectionEvents n l2 := by
  induction l1 with
  | nil => rfl
  | cons i t ih =>
    rw [List.cons_append, sectionEvents_cons, sectionEvents_cons, ih,
      List.append_assoc]

lemma deviceLoop_cons_ok (props : ℕ → Except String DeviceProp) (n i : ℕ)
    (rest : List ℕ) (p : DeviceProp) (hp : props i = Except.ok p) :
    deviceLoop props n (i :: rest)
      = ((Event.report i :: (if i < n - 1 then [Event.sep] else []))
           ++ (deviceLoop props n rest).1,
         (deviceLoop props n rest).2) := by
  simp only [deviceLoop, hp]
  split_ifs <;> rfl

lemma deviceLoop_cons_error (props : ℕ → Except String DeviceProp) (n i : ℕ)
    (rest : List ℕ) (e : String) (hp : props i = Except.error e) :
    deviceLoop props n (i :: rest) = ([Event.diag e], 1) := by
  simp only [deviceLoop, hp]

lemma deviceLoop_all_ok (props : ℕ → Except String DeviceProp) (n : ℕ)
    (l : List ℕ) (h : ∀ i ∈ l, ∃ p, props i = Except.ok p) :
    deviceLoop props n l = (sectionEvents n l, 0) := by
  induction l with
  | nil => rfl
  | cons i t ih =>
    obtain ⟨p, hp⟩ := h i (by simp)
    have ht : ∀ j ∈ t, ∃ q, props j = Except.ok q := fun j hj => h j (by simp [hj])
    rw [deviceLoop_cons_ok props n i t p hp, ih ht, sectionEvents_cons]

lemma deviceLoop_first_error (props : ℕ → Except String DeviceProp) (n : ℕ)
    (e : String) (l1 : List ℕ) (j : ℕ) (l2 : List ℕ)
    (h : ∀ i ∈ l1, ∃ p, props i = Except.ok p) (hj : props j = Except.error e) :
    deviceLoop props n (l1 ++ j :: l2)
      = (sectionEvents n l1 ++ [Event.diag e], 1) := by
  induction l1 with
  | nil =>
    rw [List.nil_append, deviceLoop_cons_error props n j l2 e hj]
    rfl
  | cons i t ih =>
    obtain ⟨p, hp⟩ := h i (by simp)
    have ht : ∀ k ∈ t, ∃ q, props k = Except.ok q := fun k hk => h k (by simp [hk])
    rw [List.cons_append, deviceLoop_cons_ok props n i (t ++ j :: l2) p hp,
      ih ht, sectionEvents_cons, List.append_assoc]

lemma deviceLoop_exit_zero (props : ℕ → Except String DeviceProp) (n : ℕ)
    (l : List ℕ) :
    (deviceLoop props n l).2 = 0 ↔ ∀ i ∈ l, ∃ p, props i = Except.ok p := by
  induction l with
  | nil => simp [deviceLoop]
  | cons i t ih =>
    cases hp : props i with
    | error e =>
      rw [deviceLoop_cons_error props n i t e hp]
      constructor
      · intro h0
        exact absurd h0 Nat.one_ne_zero
      · intro h0
        obtain ⟨p, hp2⟩ := h0 i (List.mem_cons_self i t)
        rw [hp] at hp2
        simp at hp2
    | ok p =>
      rw [deviceLoop_cons_ok props n i t p hp]
      show (deviceLoop props n t).2 = 0 ↔ _
      rw [ih]
      constructor
      · intro h0 j hj
        rcases List.mem_cons.mp hj with rfl | hj2
        · exact ⟨p, hp⟩
        · exact h0 j hj2
      · intro h0 j hj
        exact h0 j (List.mem_cons_of_mem i hj)

lemma deviceLoop_exit_cases (props : ℕ → Except String DeviceProp) (n : ℕ)
    (l : List ℕ) :
    (deviceLoop props n l).2 = 0 ∨ (deviceLoop props n l).2 = 1 := by
  induction l with
  | nil => exact Or.inl rfl
  | cons i t ih =>
    cases hp : props i with
    | error e => rw [deviceLoop_cons_error props n i t e hp]; exact Or.inr rfl
    | ok p => rw [deviceLoop_cons_ok props n i t p hp]; exact ih

lemma diag_not_mem_sectionEvents (n : ℕ) (l : List ℕ) (e : String) :
    Event.diag e ∉ sectionEvents n l := by
  induction l with
  | nil => simp [sectionEvents]
  | cons i t ih => rw [sectionEvents_cons]; split_ifs <;> simp [ih]

lemma report_mem_sectionEvents (n i : ℕ) (l : List ℕ) :
    Event.report i ∈ sectionEvents n l ↔ i ∈ l := by
  induction l with
  | nil => simp [sectionEvents]
  | cons a t ih => rw [sectionEvents_cons]; split_ifs <;> simp [ih]

lemma sep_count_sectionEvents (n : ℕ) (l : List ℕ) :
    (sectionEvents n l).count Event.sep = l.countP (fun i => decide (i < n - 1)) := by
  induction l with
  | nil => rfl
  | cons i t ih =>
    rw [sectionEvents_cons, List.count_append, List.countP_cons]
    split_ifs <;> simp_all [List.count_cons] <;> omega

lemma countP_range_lt (n : ℕ) (hn : 1 ≤ n) :
    (List.range n).countP (fun i => decide (i < n - 1)) = n - 1 := by
  obtain ⟨m, rfl⟩ : ∃ m, n = m + 1 := ⟨n - 1, by omega⟩
  rw [List.range_succ, List.countP_append]
  have h1 : (List.range m).countP (fun i => decide (i < m + 1 - 1))
      = (List.range m).length :=
    List.countP_eq_length.mpr (by intro a ha; simp [List.mem_range] at ha ⊢; omega)
  rw [h1, List.length_range]
  simp

lemma sectionEvents_getLast (n : ℕ) (l : List ℕ) (j : ℕ) (hj : ¬ j < n - 1) :
    (sectionEvents n (l ++ [j])).getLast? = some (Event.report j) := by
  have hsj : sectionEvents n [j] = [Event.report j] := by
    rw [sectionEvents_cons, if_neg hj]
    rfl
  rw [sectionEvents_append, List.getLast?_append_of_ne_nil _ (by rw [hsj]; simp), hsj]
  rfl

lemma range_split {j n : ℕ} (h : j < n) :
    List.range n = List.range j ++ j :: List.range' (j + 1) (n - j - 1) := by
  have h2 : List.range' j (n - j) = j :: List.range' (j + 1) (n - j - 1) := by
    conv_lhs => rw [(by omega : n - j = (n - j - 1) + 1)]
    rw [List.range'_succ]
  have h1 := List.range'_append 0 j (n - j) 1
  rw [(by omega : 0 + 1 * j = j)] at h1
  rw [(by omega : n - j + j = n)] at h1
  rw [List.range_eq_range', List.range_eq_range', ← h1, h2]

/- ### C1 — peak-throughput formula -/

/-- C1: the exact-formula contract fails on the code at the A100's real
parameters — major 8, minor 0 (coresPerSM = 64), 108 SMs, clockRate
1410000 (the API reports kHz) — where the program returns
36124544 / 15625 = 2311.970816 instead of the documented
multiProcessorCount × coresPerSM × clockRate × 2 / 1e6 = 19491.84,
because the 32-bit int product 64·108·1410000 = 9745920000 wraps. -/
theorem c1_overflow_at_a100 :
    getTheoreticalGFLOPS 8 0 108 1410000 = 36124544 / 15625 ∧
    getTheoreticalGFLOPS 8 0 108 1410000
      ≠ (108 : ℚ) * 64 * 1410000 * 2 / 1000000 := by
  constructor <;> norm_num [getTheoreticalGFLOPS, coresPerSM, wrap32]

/- ### C2 — core-count lookup table -/

/-- C2: `coresPerSM` realises the documented lookup table exactly —
major 2 ↦ 32, major 3 ↦ 192, major 5 ↦ 128, major 6 ↦ (minor 0 ↦ 64,
else 128), major 7 ↦ 64, major 8 ↦ (minor 0 ↦ 64, else 128),
major 9 ↦ 128 — and every (major, minor) pair outside the table
silently gets the fixed default 64 rather than an error. -/
theorem c2_core_count_table :
    (∀ m : ℤ, coresPerSM 2 m = 32) ∧
    (∀ m : ℤ, coresPerSM 3 m = 192) ∧
    (∀ m : ℤ, coresPerSM 5 m = 128) ∧
    (coresPerSM 6 0 = 64 ∧ ∀ m : ℤ, m ≠ 0 → coresPerSM 6 m = 128) ∧
    (∀ m : ℤ, coresPerSM 7 m = 64) ∧
    (coresPerSM 8 0 = 64 ∧ ∀ m : ℤ, m ≠ 0 → coresPerSM 8 m = 128) ∧
    (∀ m : ℤ, coresPerSM 9 m = 128) ∧
    (∀ major minor : ℤ, major ≠ 2 → major ≠ 3 → major ≠ 5 → major ≠ 6 →
      major ≠ 7 → major ≠ 8 → major ≠ 9 → coresPerSM major minor = 64) := by
  refine ⟨?_, ?_, ?_, ⟨?_, ?_⟩, ?_, ⟨?_, ?_⟩, ?_, ?_⟩ <;>
    intros <;> simp [coresPerSM, *]

/-- C2 witness: the table at (6,1) and the default at the untabulated
generation 4. -/
theorem c2_core_count_table_witness :
    coresPerSM 6 1 = 128 ∧ coresPerSM 4 2 = 64 :=
  ⟨c2_core_count_table.2.2.2.1.2 1 (by decide),
   c2_core_count_table.2.2.2.2.2.2.2 4 2 (by decide) (by decide) (by decide)
     (by decide) (by decide) (by decide) (by decide)⟩

/- ### C3 — classification of the five reference workloads -/

/-- C3: each of the five fixed reference intensities (0.33, 2, 8, 40, 60)
is labeled memory-bound iff its intensity is strictly below the ridge
point, compute-bound otherwise; in particular at intensity = ridge point
the printed label is compute-bound. -/
theorem c3_reference_workload_classification (R I : ℚ)
    (_hI : I ∈ referenceIntensities) :
    (classifyIntensity I R = BoundKind.memoryBound ↔ I < R) ∧
    (classifyIntensity I R = BoundKind.computingBound ↔ ¬ I < R) ∧
    classifyIntensity I I = BoundKind.computingBound := by
  refine ⟨?_, ?_, ?_⟩ <;> unfold classifyIntensity <;> split_ifs with h <;>
    simp_all [lt_irrefl]

/-- C3 witness: the matrix-vector workload (intensity 2) against ridge
point 1 is compute-bound, since 2 ≥ 1. -/
theorem c3_reference_workload_classification_witness :
    classifyIntensity 2 1 = BoundKind.computingBound ∧
    classifyIntensity 2 2 = BoundKind.computingBound := by
  have h := c3_reference_workload_classification 1 2 (by simp [referenceIntensities])
  exact ⟨h.2.1.mpr (by norm_num), h.2.2⟩

/- ### C4 — peak-bandwidth formula -/

/-- C4: `getMemoryBandwidth` returns exactly
memory_clock × 2 × bus_width / 8000 for all non-negative inputs, and in
particular 1555.2 at memory clock 1215 and bus width 5120. -/
theorem c4_memory_bandwidth_exact :
    (∀ mc bw : ℤ, 0 ≤ mc → 0 ≤ bw →
      getMemoryBandwidth mc bw = (mc : ℚ) * 2 * (bw : ℚ) / 8000) ∧
    getMemoryBandwidth 1215 5120 = 15552 / 10 := by
  constructor
  · intro mc bw _ _
    unfold getMemoryBandwidth
    norm_num
  · norm_num [getMemoryBandwidth]

/-- C4 witness: the formula part applied at memory clock 1215, bus width
5120. -/
theorem c4_memory_bandwidth_exact_witness :
    getMemoryBandwidth 1215 5120 = (1215 : ℚ) * 2 * (5120 : ℚ) / 8000 :=
  c4_memory_bandwidth_exact.1 1215 5120 (by decide) (by decide)

/- ### C5 — ridge-point division -/

/-- C5: for every peak throughput t and bandwidth b > 0,
`calculateBoundaryArithmeticIntensity` returns exactly t / b (the
definition carries no guard on b, mirroring the unguarded division in
the source). -/
theorem c5_ridge_point_div (t b : ℚ) (_hb : 0 < b) :
    calculateBoundaryArithmeticIntensity t b = t / b := rfl

/-- C5 witness: the ridge point of throughput 6 over bandwidth 3. -/
theorem c5_ridge_point_div_witness :
    calculateBoundaryArithmeticIntensity 6 3 = 6 / 3 :=
  c5_ridge_point_div 6 3 (by norm_num)

/- ### C7 — 32-bit overflow in the throughput product -/

/-- C7: the product totalCores · clockRate is taken in 32-bit int
arithmetic, so the exact-formula result is guaranteed whenever
coresPerSM(major, minor) × multiProcessorCount × clockRate ≤ 2^31 − 1,
and at the A100 values in native kHz units (108 SMs × 64 cores ×
clockRate 1410000) the returned value differs from the formula because
the 32-bit product wraps. -/
theorem c7_int32_overflow :
    (∀ major minor mpc clock : ℤ, 0 ≤ mpc → 0 ≤ clock →
        coresPerSM major minor * mpc * clock ≤ 2 ^ 31 - 1 →
        getTheoreticalGFLOPS major minor mpc clock
          = ((coresPerSM major minor * mpc * clock : ℤ) : ℚ) * 2 / 1000000) ∧
    getTheoreticalGFLOPS 8 0 108 1410000
      ≠ ((coresPerSM 8 0 * 108 * 1410000 : ℤ) : ℚ) * 2 / 1000000 := by
  constructor
  · exact gflops_exact
  · norm_num [getTheoreticalGFLOPS, coresPerSM, wrap32]

/-- C7 witness: the in-range half of the theorem applied at major 2,
minor 1, 10 SMs, clock 1000. -/
theorem c7_int32_overflow_witness :
    getTheoreticalGFLOPS 2 1 10 1000
      = ((coresPerSM 2 1 * 10 * 1000 : ℤ) : ℚ) * 2 / 1000000 :=
  c7_int32_overflow.1 2 1 10 1000 (by decide) (by decide) (by decide)

/- ### C8 — positivity of the ridge point -/

/-- C8 counterexample: at major 8, minor 0, 108 SMs, clockRate 400000
(a plausible 400 MHz device in native kHz units) with memory clock 1215
and bus width 5120, the bandwidth is positive (1555.2) yet the derived
ridge point is negative, because the 32-bit product 6912·400000 wraps to
−1530167296. -/
theorem c8_counterexample :
    0 < getMemoryBandwidth 1215 5120 ∧
    ¬ 0 < calculateBoundaryArithmeticIntensity
        (getTheoreticalGFLOPS 8 0 108 400000) (getMemoryBandwidth 1215 5120) := by
  constructor <;>
    norm_num [getMemoryBandwidth, getTheoreticalGFLOPS, coresPerSM, wrap32,
      calculateBoundaryArithmeticIntensity]

/-- C8 (amended): whenever the computed peak bandwidth is positive AND
the computed peak throughput is positive, the derived ridge-point
arithmetic intensity is strictly positive.  (Bandwidth positivity alone
does not suffice: the throughput can be 0 at clockRate 0, or negative
after 32-bit overflow.) -/
theorem c8_ridge_positive (major minor mpc clock mc bw : ℤ)
    (hbw : 0 < getMemoryBandwidth mc bw)
    (hgf : 0 < getTheoreticalGFLOPS major minor mpc clock) :
    0 < calculateBoundaryArithmeticIntensity
        (getTheoreticalGFLOPS major minor mpc clock) (getMemoryBandwidth mc bw) :=
  div_pos hgf hbw

/-- C8 witness: positive ridge point for the in-range device
(8, 0, 108 SMs, clock 1410) with memory clock 1215 and bus width 5120. -/
theorem c8_ridge_positive_witness :
    0 < calculateBoundaryArithmeticIntensity
        (getTheoreticalGFLOPS 8 0 108 1410) (getMemoryBandwidth 1215 5120) :=
  c8_ridge_positive 8 0 108 1410 1215 5120
    (by norm_num [getMemoryBandwidth])
    (by norm_num [getTheoreticalGFLOPS, coresPerSM, wrap32])

/- ### C9 — monotonicity of the estimators -/

/-- C9 counterexample: the peak-throughput estimate is NOT monotone in
the clock rate over non-negative inputs: raising the clock from 300000
to 400000 at major 8, minor 0, 108 SMs makes the result drop (the
product 6912·400000 wraps to a negative 32-bit value). -/
theorem c9_counterexample :
    (300000 : ℤ) ≤ 400000 ∧
    getTheoreticalGFLOPS 8 0 108 400000 < getTheoreticalGFLOPS 8 0 108 300000 := by
  constructor
  · decide
  · norm_num [getTheoreticalGFLOPS, coresPerSM, wrap32]

/-- C9 (amended): with the other arguments fixed over non-negative
inputs, the peak-throughput estimate is monotone in the clock rate and
in the SM count as long as the triple product
coresPerSM × multiProcessorCount × clockRate stays within 32-bit int
range at the larger argument; the peak-bandwidth estimate is monotone in
the bus width unconditionally. -/
theorem c9_monotone :
    (∀ major minor mpc c1 c2 : ℤ, 0 ≤ mpc → 0 ≤ c1 → c1 ≤ c2 →
        coresPerSM major minor * mpc * c2 ≤ 2 ^ 31 - 1 →
        getTheoreticalGFLOPS major minor mpc c1
          ≤ getTheoreticalGFLOPS major minor mpc c2) ∧
    (∀ major minor m1 m2 clock : ℤ, 0 ≤ m1 → m1 ≤ m2 → 0 ≤ clock →
        coresPerSM major minor * m2 * clock ≤ 2 ^ 31 - 1 →
        getTheoreticalGFLOPS major minor m1 clock
          ≤ getTheoreticalGFLOPS major minor m2 clock) ∧
    (∀ mc b1 b2 : ℤ, 0 ≤ mc → b1 ≤ b2 →
        getMemoryBandwidth mc b1 ≤ getMemoryBandwidth mc b2) := by
  have h6 : (0 : ℚ) ≤ 1000000 := by norm_num
  refine ⟨?_, ?_, ?_⟩
  · intro major minor mpc c1 c2 hm h1 h12 hb
    have hcores := coresPerSM_pos major minor
    have hcm : 0 ≤ coresPerSM major minor * mpc := mul_nonneg (le_of_lt hcores) hm
    have hmm : coresPerSM major minor * mpc * c1 ≤ coresPerSM major minor * mpc * c2 :=
      mul_le_mul_of_nonneg_left h12 hcm
    rw [gflops_exact major minor mpc c1 hm h1 (le_trans hmm hb),
        gflops_exact major minor mpc c2 hm (le_trans h1 h12) hb]
    apply div_le_div_of_nonneg_right _ h6
    have hq : ((coresPerSM major minor * mpc * c1 : ℤ) : ℚ)
        ≤ ((coresPerSM major minor * mpc * c2 : ℤ) : ℚ) := by exact_mod_cast hmm
    linarith
  · intro major minor m1 m2 clock hm1 hm12 hc hb
    have hcores := coresPerSM_pos major minor
    have hmm : coresPerSM major minor * m1 * clock ≤ coresPerSM major minor * m2 * clock :=
      mul_le_mul_of_nonneg_right
        (mul_le_mul_of_nonneg_left hm12 (le_of_lt hcores)) hc
    rw [gflops_exact major minor m1 clock hm1 hc (le_trans hmm hb),
        gflops_exact major minor m2 clock (le_trans hm1 hm12) hc hb]
    apply div_le_div_of_nonneg_right _ h6
    have hq : ((coresPerSM major minor * m1 * clock : ℤ) : ℚ)
        ≤ ((coresPerSM major minor * m2 * clock : ℤ) : ℚ) := by exact_mod_cast hmm
    linarith
  · intro mc b1 b2 hmc h12
    unfold getMemoryBandwidth
    have hmcq : (0 : ℚ) ≤ (mc : ℚ) := by exact_mod_cast hmc
    have h12q : (b1 : ℚ) ≤ (b2 : ℚ) := by exact_mod_cast h12
    have h8 : (0 : ℚ) ≤ 8 * 1000 := by norm_num
    apply div_le_div_of_nonneg_right _ h8
    nlinarith

/-- C9 witness: monotonicity in each argument at concrete in-range
inputs. -/
theorem c9_monotone_witness :
    getTheoreticalGFLOPS 8 0 108 1000 ≤ getTheoreticalGFLOPS 8 0 108 1410 ∧
    getTheoreticalGFLOPS 8 0 100 1410 ≤ getTheoreticalGFLOPS 8 0 108 1410 ∧
    getMemoryBandwidth 1215 4096 ≤ getMemoryBandwidth 1215 5120 :=
  ⟨c9_monotone.1 8 0 108 1000 1410 (by decide) (by decide) (by decide) (by decide),
   c9_monotone.2.1 8 0 100 108 1410 (by decide) (by decide) (by decide) (by decide),
   c9_monotone.2.2 1215 4096 5120 (by decide) (by decide)⟩

/- ### C6 — exit codes and fatal query failures -/

/-- A concrete device record used to instantiate witnesses. -/
def sampleDevice : DeviceProp := ⟨"Sample", 8, 0, 108, 1410, 1215, 5120, 0, 0⟩

/-- A property-query environment in which every device query succeeds. -/
def sampleProps : ℕ → Except String DeviceProp := fun _ => Except.ok sampleDevice

/-- C6: the program exits 0 iff the device-count query succeeds with at
least one device and every per-device property query succeeds (and then
all reports are printed); the exit code is always 0 or 1; a failing
property query at index j is fatal — exit code 1, a diagnostic naming
the failure is printed, and no device at or after j is reported; a
failing count query and the zero-device case also exit 1 with their
respective messages. -/
theorem c6_exit_codes (count : Except String ℕ)
    (props : ℕ → Except String DeviceProp) :
    ((mainRun count props).2 = 0 ↔
      ∃ n, count = Except.ok n ∧ 0 < n ∧ ∀ i, i < n → ∃ p, props i = Except.ok p) ∧
    ((mainRun count props).2 = 0 ∨ (mainRun count props).2 = 1) ∧
    (∀ n, count = Except.ok n → (∀ i, i < n → ∃ p, props i = Except.ok p) →
      ∀ i, i < n → Event.report i ∈ (mainRun count props).1) ∧
    (∀ n j e, count = Except.ok n → j < n →
      (∀ i, i < j → ∃ p, props i = Except.ok p) → props j = Except.error e →
      (mainRun count props).2 = 1 ∧ Event.diag e ∈ (mainRun count props).1 ∧
      ∀ i, Event.report i ∈ (mainRun count props).1 → i < j) ∧
    (∀ e, count = Except.error e →
      (mainRun count props).2 = 1 ∧ Event.diag e ∈ (mainRun count props).1) ∧
    (count = Except.ok 0 →
      (mainRun count props).2 = 1 ∧ Event.noDevices ∈ (mainRun count props).1) := by
  cases count with
  | error e0 =>
    refine ⟨⟨fun h0 => absurd h0 Nat.one_ne_zero, ?_⟩, Or.inr rfl, ?_, ?_, ?_, ?_⟩
    · rintro ⟨m, hm, -, -⟩
      exact Except.noConfusion hm
    · intro m hm
      exact Except.noConfusion hm
    · intro m j e hm
      exact Except.noConfusion hm
    · intro e he
      injection he with he'
      refine ⟨rfl, ?_⟩
      show Event.diag e ∈ [Event.banner, Event.diag e0]
      rw [← he']
      simp
    · intro h0
      exact Except.noConfusion h0
  | ok n =>
    by_cases hn0 : n = 0
    · subst hn0
      refine ⟨⟨fun h0 => absurd h0 Nat.one_ne_zero, ?_⟩, Or.inr rfl, ?_, ?_, ?_, ?_⟩
      · rintro ⟨m, hm, hmpos, -⟩
        injection hm with hm'
        omega
      · intro m hm hall i hi
        injection hm with hm'
        omega
      · intro m j e hm hj
        injection hm with hm'
        omega
      · intro e he
        exact Except.noConfusion he
      · intro _
        refine ⟨rfl, ?_⟩
        show Event.noDevices ∈ [Event.banner, Event.noDevices]
        simp
    · have hmain : mainRun (Except.ok n) props
          = (Event.banner :: (deviceLoop props n (List.range n)).1,
             (deviceLoop props n (List.range n)).2) := by
        simp only [mainRun]
        rw [if_neg hn0]
      refine ⟨?_, ?_, ?_, ?_, ?_, ?_⟩
      · rw [hmain]
        show (deviceLoop props n (List.range n)).2 = 0 ↔ _
        rw [deviceLoop_exit_zero]
        constructor
        · intro h0
          exact ⟨n, rfl, Nat.pos_of_ne_zero hn0,
            fun i hi => h0 i (List.mem_range.mpr hi)⟩
        · rintro ⟨m, hm, -, hall⟩
          injection hm with hm'
          subst hm'
          intro i hi
          exact hall i (List.mem_range.mp hi)
      · rw [hmain]
        exact deviceLoop_exit_cases props n (List.range n)
      · intro m hm hall i hi
        injection hm with hm'
        subst hm'
        have hdl := deviceLoop_all_ok props n (List.range n)
          (fun j hj => hall j (List.mem_range.mp hj))
        have hfull : mainRun (Except.ok n) props
            = (Event.banner :: sectionEvents n (List.range n), 0) := by
          rw [hmain, hdl]
        rw [hfull]
        show Event.report i ∈ Event.banner :: sectionEvents n (List.range n)
        exact List.mem_cons_of_mem _
          ((report_mem_sectionEvents n i (List.range n)).mpr (List.mem_range.mpr hi))
      · intro m j e hm hj hprev hje
        injection hm with hm'
        subst hm'
        have hsplit := range_split hj
        have hdl := deviceLoop_first_error props n e (List.range j) j
          (List.range' (j + 1) (n - j - 1))
          (fun i hi => hprev i (List.mem_range.mp hi)) hje
        have hfull : mainRun (Except.ok n) props
            = (Event.banner :: (sectionEvents n (List.range j) ++ [Event.diag e]), 1) := by
          rw [hmain, hsplit, hdl]
        refine ⟨?_, ?_, ?_⟩
        · rw [hfull]
        · rw [hfull]
          show Event.diag e ∈ Event.banner :: (sectionEvents n (List.range j) ++ [Event.diag e])
          simp
        · intro i hi
          rw [hfull] at hi
          simp at hi
          exact List.mem_range.mp ((report_mem_sectionEvents n i (List.range j)).mp hi)
      · intro e he
        exact Except.noConfusion he
      · intro h0
        injection h0 with h0'
        exact absurd h0' hn0

/-- C6 witness: with two devices and all queries succeeding, the exit
code is 0. -/
theorem c6_exit_codes_witness : (mainRun (Except.ok 2) sampleProps).2 = 0 :=
  (c6_exit_codes (Except.ok 2) sampleProps).1.mpr
    ⟨2, rfl, by decide, fun _ _ => ⟨sampleDevice, rfl⟩⟩

/- ### C10 — separator rules between device sections -/

/-- C10: with n ≥ 1 devices, all of whose queries succeed, the output
contains exactly n − 1 separator rules — one between each pair of
consecutive device sections — and the last thing emitted is the last
device's report section, so no separator follows the final section
(with one device no separator is printed at all). -/
theorem c10_separator_rules (n : ℕ) (props : ℕ → Except String DeviceProp)
    (hn : 1 ≤ n) (hok : ∀ i, i < n → ∃ p, props i = Except.ok p) :
    (mainRun (Except.ok n) props).1.count Event.sep = n - 1 ∧
    (mainRun (Except.ok n) props).1.getLast? = some (Event.report (n - 1)) := by
  have hn0 : n ≠ 0 := by omega
  have hdl := deviceLoop_all_ok props n (List.range n)
    (fun j hj => hok j (List.mem_range.mp hj))
  have hfull : mainRun (Except.ok n) props
      = (Event.banner :: sectionEvents n (List.range n), 0) := by
    simp only [mainRun]
    rw [if_neg hn0, hdl]
  constructor
  · rw [hfull]
    show (Event.banner :: sectionEvents n (List.range n)).count Event.sep = n - 1
    rw [List.count_cons, sep_count_sectionEvents, countP_range_lt n hn]
    simp
  · rw [hfull]
    show (Event.banner :: sectionEvents n (List.range n)).getLast? = _
    have hr : List.range n = List.range (n - 1) ++ [n - 1] := by
      conv_lhs => rw [(by omega : n = (n - 1) + 1)]
      rw [List.range_succ]
    rw [hr]
    have hne : sectionEvents n (List.range (n - 1) ++ [n - 1]) ≠ [] := by
      intro hcon
      have hl := sectionEvents_getLast n (List.range (n - 1)) (n - 1) (by omega)
      rw [hcon] at hl
      simp at hl
    show ([Event.banner] ++ sectionEvents n (List.range (n - 1) ++ [n - 1])).getLast?
        = some (Event.report (n - 1))
    rw [List.getLast?_append_of_ne_nil _ hne]
    exact sectionEvents_getLast n (List.range (n - 1)) (n - 1) (by omega)

/-- C10 witness: with two all-ok devices the output carries exactly one
separator and ends with the second device's report. -/
theorem c10_separator_rules_witness :
    (mainRun (Except.ok 2) sampleProps).1.count Event.sep = 1 ∧
    (mainRun (Except.ok 2) sampleProps).1.getLast? = some (Event.report 1) :=
  c10_separator_rules 2 sampleProps (by decide) (fun _ _ => ⟨sampleDevice, rfl⟩)

end CudaProfile
